import Mathlib

/-!
Verification development for the asset-dashboard synchronization engine.

The sync engine mirrors assets and users from an external Snipe-IT
inventory into a local store.  Pure fragments quoted in the repository
(the department resolution of sync_snipeit_assets, the fixed
user_department_map of snipeit.py, the frontend userDepartmentMap of
MacLenovoChart.tsx) are embedded directly; components whose backend
source is not part of the repository snapshot (the paginated fetcher,
the reconciliation engine, the orchestrator and scheduler) are modelled
from the specification, as marked on each definition.
-/

namespace AssetDashboard

/- ===================== Entity normalization: HTML entity decoding ===================== -/

/-- Decoding of HTML entities on a character list, modelling the
Python html.unescape calls used by the sync code, restricted to the
common entities that occur in department and user names
(amp, lt, gt, quot and the numeric apostrophe). -/
def unescapeChars : List Char → List Char
  | [] => []
  | '&' :: 'a' :: 'm' :: 'p' :: ';' :: rest => '&' :: unescapeChars rest
  | '&' :: 'l' :: 't' :: ';' :: rest => '<' :: unescapeChars rest
  | '&' :: 'g' :: 't' :: ';' :: rest => '>' :: unescapeChars rest
  | '&' :: 'q' :: 'u' :: 'o' :: 't' :: ';' :: rest => '"' :: unescapeChars rest
  | '&' :: '#' :: '0' :: '3' :: '9' :: ';' :: rest => '\'' :: unescapeChars rest
  | '&' :: '#' :: '3' :: '9' :: ';' :: rest => '\'' :: unescapeChars rest
  | c :: rest => c :: unescapeChars rest

/-- Decoding of HTML entities in a string: the html.unescape of the
sync code, on the entity set above. -/
def unescape (s : String) : String := String.mk (unescapeChars s.data)

/- ===================== External data model (Snipe-IT records) ===================== -/

/-- The assigned_to reference carried by an external asset record,
discriminated by its runtime type string: assignment to a user (with
the expanded first and last name), assignment directly to a department,
or some other assignee kind such as a location. -/
inductive AssignedTo where
  | user (id : Nat) (first_name last_name : String)
  | department (dname : Option String)
  | location (lname : String)
deriving DecidableEq, Repr

/-- The nested department reference on an external user record, as
delivered by the expanded fetch: an id and a possibly absent,
entity-encoded name. -/
structure ExtDepartment where
  dept_id : Nat
  dept_name : Option String
deriving DecidableEq, Repr

/-- One raw external user record, as fetched from the inventory
service with the department relation expanded. -/
structure ExtUser where
  id : Nat
  first_name : String
  last_name : String
  username : Option String
  email : Option String
  department : Option ExtDepartment
deriving DecidableEq, Repr

/-- One raw external asset record.  The assigned_to reference is
optional (unassigned assets carry none).  The direct department field
appears in the specification fixture for external assets; the embedded
sync code reads only the assigned_to reference. -/
structure ExtAsset where
  id : Nat
  asset_tag : String
  department : Option String
  assigned_to : Option AssignedTo
deriving DecidableEq, Repr

/- ===================== Generic keyed store ===================== -/

/-- A local store is an association list keyed by the stable external
id (the sole merge key). -/
abbrev Store (κ α : Type) : Type := List (κ × α)

/-- Lookup of a record by key in a store. -/
def lookupStore {κ α : Type} [DecidableEq κ] : Store κ α → κ → Option α
  | [], _ => none
  | (k, v) :: rest, k0 => if k = k0 then some v else lookupStore rest k0

/-- Replacement of the record stored under a key, leaving every other
record in place. -/
def updateStore {κ α : Type} [DecidableEq κ] : Store κ α → κ → α → Store κ α
  | [], _, _ => []
  | (k, w) :: rest, k0, v =>
      if k = k0 then (k, v) :: updateStore rest k0 v else (k, w) :: updateStore rest k0 v

/-- Set semantics of a JavaScript Map: overwrite the value under an
existing key, append a fresh entry otherwise. -/
def storeSet {κ α : Type} [DecidableEq κ] (m : Store κ α) (k : κ) (v : α) : Store κ α :=
  match lookupStore m k with
  | some _ => updateStore m k v
  | none => m ++ [(k, v)]

/- ===================== Department lookup and resolution ===================== -/

/-- The department name carried by an external user record, when both
the nested department object and its name are present.  This models
the Python expression reading name from the department object with a
default of None. -/
def userDeptRaw (u : ExtUser) : Option String :=
  match u.department with
  | some d => d.dept_name
  | none => none

/-- The user-id to decoded-department-name lookup built by
user_department_map in snipeit.py, in its fixed form quoted in the
repository docs: the value is html.unescape of the department name
when that name is truthy, and None otherwise.  A Python dict
comprehension keeps the last entry for a duplicated id, hence the
lookup searches the reversed user list. -/
def user_department_map (users : List ExtUser) (uid : Nat) : Option String :=
  match users.reverse.find? (fun u => u.id = uid) with
  | some u =>
      match userDeptRaw u with
      | some n => if n = "" then none else some (unescape n)
      | none => none
  | none => none

/-- Department resolution of sync_snipeit_assets, translated from the
quoted source: when the assigned_to reference has type user, the
department comes from the lookup at that user id; when it has type
department, the department is the name on the reference; in every
other case (other assignee kinds, or no assignee) it is None.  The
direct department field of the external record is not read. -/
def resolveAssetDept (deptLookup : Nat → Option String) (row : ExtAsset) : Option String :=
  match row.assigned_to with
  | some (.user uid _ _) => deptLookup uid
  | some (.department n) => n
  | _ => none

/-- Department resolution as the specification words it, for
comparison with the embedded source: the direct department assignment
on the external record when present, else the department of the
assigned user via the lookup, else absent. -/
def resolveAssetDeptSpec (deptLookup : Nat → Option String) (row : ExtAsset) : Option String :=
  match row.department with
  | some d => some d
  | none =>
      match row.assigned_to with
      | some (.user uid _ _) => deptLookup uid
      | some (.department n) => n
      | _ => none

/- ===================== Normalized local records ===================== -/

/-- Removal of leading and trailing whitespace from a character list,
modelling the Python str.strip with no argument. -/
def stripChars (l : List Char) : List Char :=
  ((l.dropWhile Char.isWhitespace).reverse.dropWhile Char.isWhitespace).reverse

/-- The Python str.strip on strings. -/
def pyStrip (s : String) : String := String.mk (stripChars s.data)

/-- The display name derived for a user: first name, a space, the last
name, stripped of surrounding whitespace (the Python f-string with
strip quoted in the docs). -/
def displayName (first_name last_name : String) : String :=
  pyStrip (first_name ++ " " ++ last_name)

/-- One local user row, after normalization (models.py User plus the
department_name enhancement). -/
structure LocalUser where
  first_name : Option String
  last_name : Option String
  username : Option String
  email : Option String
  department_id : Option String
  department_name : Option String
deriving DecidableEq, Repr

/-- One local asset row, restricted to the derived fields the claims
are about. -/
structure LocalAsset where
  asset_tag : String
  department : Option String
  assigned_user_name : Option String
deriving DecidableEq, Repr

/-- Normalization of one external user record by sync_snipeit_users:
the department name is decoded with html.unescape (the correct path
quoted in the repository docs), tolerating an absent department. -/
def normalizeUser (u : ExtUser) : LocalUser :=
  { first_name := some u.first_name
    last_name := some u.last_name
    username := u.username
    email := u.email
    department_id := u.department.map (fun d => toString d.dept_id)
    department_name :=
      match userDeptRaw u with
      | some n => some (unescape n)
      | none => none }

/-- Normalization plus resolution of one external asset record by
sync_snipeit_assets: the department comes from resolveAssetDept under
the given lookup, and the assigned user display name is the derived
full name of the assignee when the assignee is a user, absent
otherwise. -/
def normalizeAsset (deptLookup : Nat → Option String) (row : ExtAsset) : LocalAsset :=
  { asset_tag := row.asset_tag
    department := resolveAssetDept deptLookup row
    assigned_user_name :=
      match row.assigned_to with
      | some (.user _ f l) => some (displayName f l)
      | _ => none }

/- ===================== Reconciliation engine ===================== -/

/-- Outcome counts of one reconciliation run. -/
structure Counts where
  created : Nat
  updated : Nat
  unchanged : Nat
deriving DecidableEq, Repr

/-- Modelled from the spec: the reconciliation engine of sync.py,
whose source is not part of the repository snapshot.  For each
incoming record, look up the existing record by external id; insert
when absent, update when any field differs, leave untouched otherwise;
records absent from the batch are never deleted.  Returns the final
store together with the created, updated and unchanged counts of this
run. -/
def reconcile {α : Type} [DecidableEq α] (st : Store Nat α) :
    List (Nat × α) → Store Nat α × Counts
  | [] => (st, ⟨0, 0, 0⟩)
  | kv :: rest =>
    match lookupStore st kv.1 with
    | none =>
        let r := reconcile (st ++ [kv]) rest
        (r.1, { r.2 with created := r.2.created + 1 })
    | some w =>
        if w = kv.2 then
          let r := reconcile st rest
          (r.1, { r.2 with unchanged := r.2.unchanged + 1 })
        else
          let r := reconcile (updateStore st kv.1 kv.2) rest
          (r.1, { r.2 with updated := r.2.updated + 1 })

/- ===================== External client: paginated fetch ===================== -/

/-- One page served by the external list endpoint for a given limit
and offset: the slice of the collection starting at the offset, at
most limit records long. -/
def pageSlice {α : Type} (coll : List α) (lim off : Nat) : List α :=
  (coll.drop off).take lim

/-- Modelled from the spec: the page-accumulating loop of the fixed
fetch_all_users and fetch_all_assets of snipeit.py, whose source is
not part of the repository snapshot.  Starting from the current
remainder of the collection, request one page of size lim, append it,
and stop as soon as a page comes back shorter than requested.  The
fuel argument bounds the number of pages and is chosen large enough in
fetch_all. -/
def fetchPages {α : Type} (lim : Nat) : Nat → List α → List α
  | 0, _ => []
  | fuel + 1, rest =>
      let page := rest.take lim
      if page.length < lim then page
      else page ++ fetchPages lim fuel (rest.drop lim)

/-- Modelled from the spec: fetch_all retrieves the entire external
collection with limit and offset pagination. -/
def fetch_all {α : Type} (coll : List α) (lim : Nat) : List α :=
  fetchPages lim (coll.length + 1) coll

/- ===================== Sync operations ===================== -/

/-- The local store pair the sync engine writes to. -/
structure DB where
  users : Store Nat LocalUser
  assets : Store Nat LocalAsset
deriving DecidableEq, Repr

/-- Modelled from the spec: sync_snipeit_users normalizes the full
fetched user set and reconciles it into the local user table, keyed by
the stable external id. -/
def syncUsers (st : Store Nat LocalUser) (extUsers : List ExtUser) :
    Store Nat LocalUser × Counts :=
  reconcile st (extUsers.map (fun u => (u.id, normalizeUser u)))

/-- Modelled from the spec and the quoted fix: sync_snipeit_assets
rebuilds the department lookup from the freshly fetched complete user
set inside the invocation (no module-level cache), then normalizes,
resolves and reconciles every fetched asset. -/
def syncAssets (st : Store Nat LocalAsset) (extUsers : List ExtUser)
    (extAssets : List ExtAsset) : Store Nat LocalAsset × Counts :=
  let dept_lookup := user_department_map extUsers
  reconcile st (extAssets.map (fun a => (a.id, normalizeAsset dept_lookup a)))

/-- Modelled from the spec: the all operation of the orchestrator runs
the complete user sync first, then the asset sync; the asset sync
resolves departments against the user set fetched in this same run. -/
def sync_all (db : DB) (extUsers : List ExtUser) (extAssets : List ExtAsset) : DB :=
  let ust := (syncUsers db.users extUsers).1
  let ast := (syncAssets db.assets extUsers extAssets).1
  { users := ust, assets := ast }

/- ===================== Fetch failure handling ===================== -/

/-- Outcome of one sync run. -/
inductive Outcome where
  | succeeded
  | failed
deriving DecidableEq, Repr

/-- Modelled from the spec: the bounded retry loop of the external
client.  The list holds the outcome of each successive attempt; the
first success is returned, and when every bounded attempt fails the
last error propagates. -/
def fetchWithRetry {α : Type} : List (Except String α) → Except String α
  | [] => .error "no attempts"
  | [a] => a
  | .ok v :: _ => .ok v
  | .error _ :: a :: rest => fetchWithRetry (a :: rest)

/-- Modelled from the spec: one user-sync run.  A fetch that fails
after exhausting its retries marks the run Failed and leaves the local
store untouched; a successful fetch reconciles. -/
def runUserSync (db : DB) (attempts : List (Except String (List ExtUser))) :
    DB × Outcome :=
  match fetchWithRetry attempts with
  | .error _ => (db, .failed)
  | .ok extUsers => ({ db with users := (syncUsers db.users extUsers).1 }, .succeeded)

/-- Modelled from the spec: one asset-sync run, which fetches the
complete user set (for the department lookup) and the asset set; a
fetch failure on either collection marks the run Failed and leaves the
local store untouched. -/
def runAssetSync (db : DB) (userAttempts : List (Except String (List ExtUser)))
    (assetAttempts : List (Except String (List ExtAsset))) : DB × Outcome :=
  match fetchWithRetry userAttempts with
  | .error _ => (db, .failed)
  | .ok extUsers =>
      match fetchWithRetry assetAttempts with
      | .error _ => (db, .failed)
      | .ok extAssets =>
          ({ db with assets := (syncAssets db.assets extUsers extAssets).1 }, .succeeded)

/- ===================== Sync orchestrator: single flight ===================== -/

/-- The sync kinds the orchestrator exposes. -/
inductive SyncKind where
  | users
  | assets
  | allKinds
deriving DecidableEq, Repr

/-- Modelled from the spec: the orchestrator state tracks, per sync
kind, how many runs of that kind are currently executing. -/
structure OrchState where
  running : SyncKind → Nat

/-- Result signalled to a caller requesting a sync. -/
inductive SyncRequestResult where
  | started
  | alreadyRunning
deriving DecidableEq, Repr

/-- Modelled from the spec: a sync request acquires the exclusive
per-kind lock.  While a run of the kind is executing, the request is
rejected immediately with the already-running signal and the state is
unchanged (nothing is queued); otherwise a single run of that kind
starts. -/
def requestSync (s : OrchState) (k : SyncKind) : OrchState × SyncRequestResult :=
  if 1 ≤ s.running k then (s, .alreadyRunning)
  else ({ running := fun k0 => if k0 = k then s.running k0 + 1 else s.running k0 }, .started)

/-- An externally visible orchestrator event: a sync request for a
kind, or the completion of the running sync of a kind. -/
inductive OrchEvent where
  | request (k : SyncKind)
  | finish (k : SyncKind)

/-- One orchestrator transition. -/
def orchStep (s : OrchState) : OrchEvent → OrchState
  | .request k => (requestSync s k).1
  | .finish k => { running := fun k0 => if k0 = k then s.running k0 - 1 else s.running k0 }

/-- The orchestrator state reached from a state by a sequence of
events. -/
def orchRun (s : OrchState) : List OrchEvent → OrchState
  | [] => s
  | e :: rest => orchRun (orchStep s e) rest

/-- The initial orchestrator state: every kind idle. -/
def orchInit : OrchState := { running := fun _ => 0 }

/- ===================== Frontend join (MacLenovoChart.tsx) ===================== -/

/-- One user row as the dashboard receives it (types/user.ts). -/
structure FEUser where
  first_name : String
  last_name : String
  department_name : String
deriving DecidableEq, Repr

/-- The userDepartmentMap of MacLenovoChart.tsx, translated from the
source: for every user whose first name, last name and department name
are truthy, map the trimmed full name to the department name. -/
def feUserDepartmentMap (users : List FEUser) : Store String String :=
  users.foldl
    (fun m u =>
      if u.first_name ≠ "" ∧ u.last_name ≠ "" ∧ u.department_name ≠ "" then
        storeSet m (pyStrip (u.first_name ++ " " ++ u.last_name)) u.department_name
      else m)
    []

/-- The per-asset department grouping of MacLenovoChart.tsx,
translated from the source: start from Unassigned; when the asset has
a truthy assigned user name and the map holds a truthy department for
it, use that department. -/
def chartDepartment (m : Store String String) (assigned_user_name : Option String) :
    String :=
  match assigned_user_name with
  | some n =>
      if n = "" then "Unassigned"
      else
        match lookupStore m n with
        | some d => if d = "" then "Unassigned" else d
        | none => "Unassigned"
  | none => "Unassigned"

/- ===================== Concrete fixtures ===================== -/

/-- The external user of the end-to-end scenario in the spec: id 1,
Ann Lee, department 9 named with an encoded ampersand. -/
def annExt : ExtUser :=
  { id := 1, first_name := "Ann", last_name := "Lee", username := none,
    email := none, department := some { dept_id := 9, dept_name := some "R&amp;D" } }

/-- The external asset of the end-to-end scenario in the spec: id 100,
tag A1, no direct department, assigned to user 1. -/
def asset100 : ExtAsset :=
  { id := 100, asset_tag := "A1", department := none,
    assigned_to := some (.user 1 "Ann" "Lee") }

/-- An empty local store pair. -/
def emptyDB : DB := { users := [], assets := [] }

/-- The local store after running sync_all on the end-to-end fixture. -/
def fixtureDB : DB := sync_all emptyDB [annExt] [asset100]

/-- An external user assigned to department Engineering, for the
precedence counterexample. -/
def bobExt : ExtUser :=
  { id := 1, first_name := "Bob", last_name := "Ray", username := none,
    email := none, department := some { dept_id := 7, dept_name := some "Engineering" } }

/-- An external asset that carries both a direct department value and
an assigned user whose department differs. -/
def assetBoth : ExtAsset :=
  { id := 200, asset_tag := "T1", department := some "Sales",
    assigned_to := some (.user 1 "Bob" "Ray") }

/-- A user told to produce a department with an encoded ampersand, for
the decoding-invariant witness. -/
def techExt : ExtUser :=
  { id := 3, first_name := "Tess", last_name := "Kim", username := none,
    email := none,
    department := some { dept_id := 4, dept_name := some "Technology &amp; Facilities" } }

/-- An orchestrator state in which a run of every kind is executing. -/
def busyOrch : OrchState := { running := fun _ => 1 }

/- ===================== Store lemmas ===================== -/

theorem lookupStore_append_ne {κ α : Type} [DecidableEq κ] (st : Store κ α)
    (k k0 : κ) (v : α) (h : k ≠ k0) :
    lookupStore (st ++ [(k, v)]) k0 = lookupStore st k0 := by
  induction st with
  | nil => simp [lookupStore, h]
  | cons p rest ih =>
    obtain ⟨k1, w⟩ := p
    by_cases hk : k1 = k0
    · simp [lookupStore, hk]
    · simp [lookupStore, hk, ih]

theorem lookupStore_append_none {κ α : Type} [DecidableEq κ] (st : Store κ α)
    (k : κ) (v : α) (h : lookupStore st k = none) :
    lookupStore (st ++ [(k, v)]) k = some v := by
  induction st with
  | nil => simp [lookupStore]
  | cons p rest ih =>
    obtain ⟨k1, w⟩ := p
    by_cases hk : k1 = k
    · simp [lookupStore, hk] at h
    · simp [lookupStore, hk] at h ⊢
      exact ih h

theorem lookupStore_update_ne {κ α : Type} [DecidableEq κ] (st : Store κ α)
    (k k0 : κ) (v : α) (h : k ≠ k0) :
    lookupStore (updateStore st k v) k0 = lookupStore st k0 := by
  induction st with
  | nil => simp [updateStore, lookupStore]
  | cons p rest ih =>
    obtain ⟨k1, w⟩ := p
    by_cases hk : k1 = k
    · subst hk
      simp [updateStore, lookupStore, h, ih]
    · by_cases hk0 : k1 = k0
      · simp [updateStore, lookupStore, hk, hk0, Ne.symm h]
      · simp [updateStore, lookupStore, hk, hk0, ih]

theorem lookupStore_update_self {κ α : Type} [DecidableEq κ] (st : Store κ α)
    (k : κ) (v w : α) (h : lookupStore st k = some w) :
    lookupStore (updateStore st k v) k = some v := by
  induction st with
  | nil => simp [lookupStore] at h
  | cons p rest ih =>
    obtain ⟨k1, w1⟩ := p
    by_cases hk : k1 = k
    · simp [updateStore, lookupStore, hk]
    · simp [lookupStore, hk] at h
      simp [updateStore, lookupStore, hk]
      exact ih h

/- ===================== Reconciliation lemmas ===================== -/

theorem reconcile_frame {α : Type} [DecidableEq α] (batch : List (Nat × α))
    (st : Store Nat α) (k : Nat) (h : k ∉ batch.map Prod.fst) :
    lookupStore (reconcile st batch).1 k = lookupStore st k := by
  induction batch generalizing st with
  | nil => simp [reconcile]
  | cons kv rest ih =>
    obtain ⟨k1, v1⟩ := kv
    have hk : k1 ≠ k := by
      intro e; exact h (by simp [e])
    have hrest : k ∉ rest.map Prod.fst := by
      intro e; exact h (by simp [e])
    cases hl : lookupStore st k1 with
    | none =>
      simp only [reconcile, hl]
      rw [ih _ hrest, lookupStore_append_ne _ _ _ _ hk]
    | some w =>
      by_cases hw : w = v1
      · simp only [reconcile, hl, if_pos hw]
        exact ih _ hrest
      · simp only [reconcile, hl, if_neg hw]
        rw [ih _ hrest, lookupStore_update_ne _ _ _ _ hk]

theorem reconcile_found {α : Type} [DecidableEq α] (batch : List (Nat × α))
    (st : Store Nat α) (k : Nat) (v : α)
    (hnd : (batch.map Prod.fst).Nodup) (hmem : (k, v) ∈ batch) :
    lookupStore (reconcile st batch).1 k = some v := by
  induction batch generalizing st with
  | nil => cases hmem
  | cons kv rest ih =>
    obtain ⟨k1, v1⟩ := kv
    rw [List.map_cons] at hnd
    have hnd1 : k1 ∉ rest.map Prod.fst := (List.nodup_cons.mp hnd).1
    have hndrest : (rest.map Prod.fst).Nodup := (List.nodup_cons.mp hnd).2
    rcases List.mem_cons.mp hmem with heq | hmem2
    · injection heq with hk hv
      subst hk
      subst hv
      cases hl : lookupStore st k with
      | none =>
        simp only [reconcile, hl]
        rw [reconcile_frame _ _ _ hnd1]
        exact lookupStore_append_none _ _ _ hl
      | some w =>
        by_cases hw : w = v
        · simp only [reconcile, hl, if_pos hw]
          rw [reconcile_frame _ _ _ hnd1, hl, hw]
        · simp only [reconcile, hl, if_neg hw]
          rw [reconcile_frame _ _ _ hnd1]
          exact lookupStore_update_self _ _ _ _ hl
    · cases hl : lookupStore st k1 with
      | none =>
        simp only [reconcile, hl]
        exact ih _ hndrest hmem2
      | some w =>
        by_cases hw : w = v1
        · simp only [reconcile, hl, if_pos hw]
          exact ih _ hndrest hmem2
        · simp only [reconcile, hl, if_neg hw]
          exact ih _ hndrest hmem2

theorem reconcile_noop {α : Type} [DecidableEq α] (batch : List (Nat × α))
    (st : Store Nat α) (h : ∀ kv ∈ batch, lookupStore st kv.1 = some kv.2) :
    reconcile st batch = (st, ⟨0, 0, batch.length⟩) := by
  induction batch with
  | nil => simp [reconcile]
  | cons kv rest ih =>
    have h1 : lookupStore st kv.1 = some kv.2 := h kv (List.mem_cons_self _ _)
    have h2 : ∀ kv0 ∈ rest, lookupStore st kv0.1 = some kv0.2 :=
      fun kv0 hm => h kv0 (List.mem_cons_of_mem _ hm)
    simp [reconcile, h1, ih h2]

/- ===================== Lookup construction lemmas ===================== -/

theorem find_rev_nodup (users : List ExtUser) (u : ExtUser)
    (hnd : (users.map ExtUser.id).Nodup) (hmem : u ∈ users) :
    users.reverse.find? (fun v => v.id = u.id) = some u := by
  induction users with
  | nil => cases hmem
  | cons w rest ih =>
    rw [List.map_cons] at hnd
    have hnd1 : w.id ∉ rest.map ExtUser.id := (List.nodup_cons.mp hnd).1
    have hndrest : (rest.map ExtUser.id).Nodup := (List.nodup_cons.mp hnd).2
    rw [List.reverse_cons, List.find?_append]
    rcases List.mem_cons.mp hmem with rfl | hmem2
    · have hnone : rest.reverse.find? (fun v => v.id = u.id) = none := by
        rw [List.find?_eq_none]
        intro x hx
        simp only [decide_eq_true_eq]
        intro e
        exact hnd1 (e ▸ List.mem_map_of_mem ExtUser.id (List.mem_reverse.mp hx))
      rw [hnone]
      simp [List.find?]
    · rw [ih hndrest hmem2]
      rfl

/- ===================== Pagination lemmas ===================== -/

theorem fetchPages_all {α : Type} (lim : Nat) (hlim : 1 ≤ lim) :
    ∀ (fuel : Nat) (rest : List α), rest.length < fuel →
      fetchPages lim fuel rest = rest := by
  intro fuel
  induction fuel with
  | zero => intro rest h; exact absurd h (Nat.not_lt_zero _)
  | succ f ih =>
    intro rest h
    by_cases hp : (rest.take lim).length < lim
    · have hlen : rest.length < lim := by
        rw [List.length_take] at hp
        omega
      simp only [fetchPages, if_pos hp]
      exact List.take_of_length_le (Nat.le_of_lt hlen)
    · have hge : lim ≤ rest.length := by
        rw [List.length_take] at hp
        omega
      have hdrop : (rest.drop lim).length < f := by
        rw [List.length_drop]
        omega
      simp only [fetchPages, if_neg hp]
      rw [ih _ hdrop, List.take_append_drop]

/- ===================== Orchestrator lemmas ===================== -/

theorem orch_le_one (events : List OrchEvent) :
    ∀ (s : OrchState), (∀ k, s.running k ≤ 1) →
      ∀ k, (orchRun s events).running k ≤ 1 := by
  induction events with
  | nil => intro s h k; exact h k
  | cons e rest ih =>
    intro s h k
    apply ih _ _ k
    intro k0
    cases e with
    | request k1 =>
      simp only [orchStep, requestSync]
      by_cases h1 : 1 ≤ s.running k1
      · simp only [if_pos h1]
        exact h k0
      · simp only [if_neg h1]
        by_cases hk : k0 = k1
        · simp only [if_pos hk]
          have := h k1
          subst hk
          omega
        · simp only [if_neg hk]
          exact h k0
    | finish k1 =>
      simp only [orchStep]
      by_cases hk : k0 = k1
      · simp only [if_pos hk]
        exact Nat.le_trans (Nat.sub_le _ _) (h k0)
      · simp only [if_neg hk]
        exact h k0

/- ===================== Retry lemmas ===================== -/

theorem fetchWithRetry_errors {α : Type} (attempts : List (Except String α))
    (h : ∀ a ∈ attempts, ∃ e, a = Except.error e) :
    ∃ e, fetchWithRetry attempts = Except.error e := by
  induction attempts with
  | nil => exact ⟨"no attempts", rfl⟩
  | cons a rest ih =>
    obtain ⟨e, rfl⟩ := h a (List.mem_cons_self _ _)
    cases rest with
    | nil => exact ⟨e, rfl⟩
    | cons b rest2 =>
      have := ih (fun x hx => h x (List.mem_cons_of_mem _ hx))
      simpa [fetchWithRetry] using this

/- ===================== Claim theorems ===================== -/

/-- C1: pagination completeness.  For every external collection and
every positive page size, fetch_all returns exactly the whole
collection, each record exactly once; it is never capped at a single
page or at a server-side maximum. -/
theorem fetch_all_complete {α : Type} (coll : List α) (lim : Nat) (h : 1 ≤ lim) :
    fetch_all coll lim = coll :=
  fetchPages_all lim h (coll.length + 1) coll (Nat.lt_succ_self _)

theorem fetch_all_complete_w :
    1 ≤ 2 ∧ fetch_all [10, 20, 30, 40, 50] 2 = [10, 20, 30, 40, 50] :=
  ⟨by decide, fetch_all_complete [10, 20, 30, 40, 50] 2 (by decide)⟩

/-- C2 counterexample: an external asset carrying both a direct
department value (Sales) and an assigned user whose department differs
(Engineering) resolves, under the embedded sync code, to the user
department and not to the direct department, while the resolution the
spec words would give the direct department. -/
theorem dept_precedence_cex :
    assetBoth.department = some "Sales" ∧
    user_department_map [bobExt] 1 = some "Engineering" ∧
    resolveAssetDept (user_department_map [bobExt]) assetBoth = some "Engineering" ∧
    resolveAssetDept (user_department_map [bobExt]) assetBoth ≠ assetBoth.department ∧
    resolveAssetDeptSpec (user_department_map [bobExt]) assetBoth = some "Sales" := by
  refine ⟨by decide, by decide, by decide, by decide, by decide⟩

/-- C2 (amended): the resolved department of an asset is determined
entirely by its assigned_to reference — assigned user gives that user
department via the lookup, direct assignment to a department gives
that department name, anything else gives absent — and a direct
department value on the external record never influences the result,
so when an assigned user is present the resolved department is the
user one, not the direct value. -/
theorem dept_resolution_assigned_to_only (L : Nat → Option String) (row : ExtAsset)
    (d : Option String) :
    resolveAssetDept L { row with department := d } = resolveAssetDept L row ∧
    (∀ uid f l, row.assigned_to = some (AssignedTo.user uid f l) →
      resolveAssetDept L row = L uid) ∧
    (∀ n, row.assigned_to = some (AssignedTo.department n) →
      resolveAssetDept L row = n) ∧
    (row.assigned_to = none → resolveAssetDept L row = none) := by
  refine ⟨rfl, ?_, ?_, ?_⟩
  · intro uid f l h
    simp [resolveAssetDept, h]
  · intro n h
    simp [resolveAssetDept, h]
  · intro h
    simp [resolveAssetDept, h]

theorem dept_resolution_assigned_to_only_w :
    resolveAssetDept (user_department_map [bobExt]) assetBoth =
      user_department_map [bobExt] 1 :=
  (dept_resolution_assigned_to_only (user_department_map [bobExt]) assetBoth
    none).2.1 1 "Bob" "Ray" (by decide)

/-- C3: decoding invariant.  A department name reaching the local data
through the user sync path and through the asset sync path (via
user_department_map) decodes to the same string: both apply the same
html.unescape, so for example the encoded Technology and Facilities
name decodes identically on both paths. -/
theorem dept_decoding_consistent (users : List ExtUser) (u : ExtUser) (n : String)
    (hnd : (users.map ExtUser.id).Nodup) (hmem : u ∈ users)
    (hraw : userDeptRaw u = some n) (hne : n ≠ "") :
    user_department_map users u.id = some (unescape n) ∧
    (normalizeUser u).department_name = some (unescape n) ∧
    unescape "Technology &amp; Facilities" = "Technology & Facilities" := by
  refine ⟨?_, ?_, by decide⟩
  · simp only [user_department_map, find_rev_nodup users u hnd hmem, hraw, if_neg hne]
  · simp [normalizeUser, hraw]

theorem dept_decoding_consistent_w :
    user_department_map [techExt] techExt.id = some "Technology & Facilities" ∧
    (normalizeUser techExt).department_name = some "Technology & Facilities" := by
  have h := dept_decoding_consistent [techExt] techExt "Technology &amp; Facilities"
    (by decide) (by decide) (by decide) (by decide)
  refine ⟨?_, ?_⟩
  · rw [h.1]; decide
  · rw [h.2.1]; decide

/-- C4: the department lookup used by an asset sync is rebuilt from
the complete user set fetched by that same invocation — after any
earlier run with a different user set, every asset written by the
current run is resolved against the current run lookup — and within
one all run the complete user sync result is what the user table
holds. -/
theorem dept_lookup_fresh :
    (∀ (db : DB) (u2 : List ExtUser) (x2 : List ExtAsset),
      (sync_all db u2 x2).users = (syncUsers db.users u2).1) ∧
    (∀ (db : DB) (u1 : List ExtUser) (x1 : List ExtAsset)
       (u2 : List ExtUser) (x2 : List ExtAsset) (a : ExtAsset),
      (x2.map ExtAsset.id).Nodup → a ∈ x2 →
      lookupStore (sync_all (sync_all db u1 x1) u2 x2).assets a.id =
        some (normalizeAsset (user_department_map u2) a)) := by
  constructor
  · intro db u2 x2
    rfl
  · intro db u1 x1 u2 x2 a hnd hmem
    apply reconcile_found
    · rw [List.map_map]
      exact hnd
    · exact List.mem_map_of_mem _ hmem

theorem dept_lookup_fresh_w :
    lookupStore (sync_all (sync_all emptyDB [] []) [annExt] [asset100]).assets 100 =
      some (normalizeAsset (user_department_map [annExt]) asset100) ∧
    normalizeAsset (user_department_map [annExt]) asset100 =
      { asset_tag := "A1", department := some "R&D", assigned_user_name := some "Ann Lee" } :=
  ⟨dept_lookup_fresh.2 emptyDB [] [] [annExt] [asset100] asset100 (by decide) (by decide),
   by decide⟩

/-- C5: reconciliation is idempotent.  Re-running reconciliation on an
unchanged external batch (with the unique external ids of an external
collection) performs zero creates and zero updates: every record
compares equal and the store is left untouched. -/
theorem reconcile_idempotent {α : Type} [DecidableEq α] (st : Store Nat α)
    (batch : List (Nat × α)) (hnd : (batch.map Prod.fst).Nodup) :
    reconcile (reconcile st batch).1 batch =
      ((reconcile st batch).1, ⟨0, 0, batch.length⟩) := by
  apply reconcile_noop
  intro kv hm
  obtain ⟨k, v⟩ := kv
  exact reconcile_found batch st k v hnd hm

theorem reconcile_idempotent_w :
    reconcile (reconcile ([] : Store Nat Nat) [(1, 10), (2, 20)]).1 [(1, 10), (2, 20)] =
      ((reconcile ([] : Store Nat Nat) [(1, 10), (2, 20)]).1, ⟨0, 0, 2⟩) :=
  reconcile_idempotent _ _ (by decide)

/-- C6: reconciliation never deletes.  A local record whose external
id does not appear in the current external batch is unchanged in the
local store after reconciliation completes. -/
theorem reconcile_never_deletes {α : Type} [DecidableEq α] (st : Store Nat α)
    (batch : List (Nat × α)) (k : Nat) (h : k ∉ batch.map Prod.fst) :
    lookupStore (reconcile st batch).1 k = lookupStore st k :=
  reconcile_frame batch st k h

theorem reconcile_never_deletes_w :
    (5 : Nat) ∉ ([(1, 10)] : List (Nat × Nat)).map Prod.fst ∧
    lookupStore (reconcile ([(5, 55)] : Store Nat Nat) [(1, 10)]).1 5 =
      lookupStore ([(5, 55)] : Store Nat Nat) 5 ∧
    lookupStore ([(5, 55)] : Store Nat Nat) 5 = some 55 :=
  ⟨by decide, reconcile_never_deletes _ _ _ (by decide), by decide⟩

/-- C7: single-flight guarantee.  A sync request for a kind that is
already Running is rejected immediately with the already-running
signal and changes nothing (it is not queued), and along every event
sequence from the idle state at most one run of each kind is ever
executing. -/
theorem sync_single_flight :
    (∀ (s : OrchState) (k : SyncKind), 1 ≤ s.running k →
      requestSync s k = (s, SyncRequestResult.alreadyRunning)) ∧
    (∀ (events : List OrchEvent) (k : SyncKind),
      (orchRun orchInit events).running k ≤ 1) := by
  constructor
  · intro s k h
    simp [requestSync, h]
  · intro events k
    exact orch_le_one events orchInit (fun _ => Nat.zero_le _) k

theorem sync_single_flight_w :
    1 ≤ busyOrch.running SyncKind.assets ∧
    requestSync busyOrch SyncKind.assets = (busyOrch, SyncRequestResult.alreadyRunning) ∧
    (orchRun orchInit
        [OrchEvent.request SyncKind.assets, OrchEvent.request SyncKind.assets]).running
      SyncKind.assets ≤ 1 :=
  ⟨by decide, sync_single_flight.1 busyOrch SyncKind.assets (by decide),
   sync_single_flight.2 _ _⟩

/-- C8: a fetch that exhausts its bounded retries marks the run of
that kind Failed and leaves the local store completely unchanged; a
truncated result is never merged. -/
theorem fetch_failure_aborts :
    (∀ (db : DB) (uatt : List (Except String (List ExtUser))),
      (∀ a ∈ uatt, ∃ e, a = Except.error e) →
      runUserSync db uatt = (db, Outcome.failed)) ∧
    (∀ (db : DB) (uatt : List (Except String (List ExtUser)))
       (aatt : List (Except String (List ExtAsset))),
      (∀ a ∈ aatt, ∃ e, a = Except.error e) →
      runAssetSync db uatt aatt = (db, Outcome.failed)) := by
  constructor
  · intro db uatt h
    obtain ⟨e, he⟩ := fetchWithRetry_errors uatt h
    simp [runUserSync, he]
  · intro db uatt aatt h
    obtain ⟨e, he⟩ := fetchWithRetry_errors aatt h
    cases hu : fetchWithRetry uatt with
    | error e2 => simp [runAssetSync, hu]
    | ok extUsers => simp [runAssetSync, hu, he]

theorem fetch_failure_aborts_w :
    runUserSync emptyDB [Except.error "boom", Except.error "boom again"] =
      (emptyDB, Outcome.failed) :=
  fetch_failure_aborts.1 emptyDB _ (by
    intro a ha
    rcases List.mem_cons.mp ha with rfl | ha2
    · exact ⟨"boom", rfl⟩
    · rcases List.mem_singleton.mp ha2 with rfl
      exact ⟨"boom again", rfl⟩)

/-- C9: the derived display name is the first name, a space and the
last name, stripped, and this string is the join key: the sync stores
it as the assigned user name of the asset, and the dashboard map keyed
by the same derived name matches it; on the end-to-end fixture the
stored user has department R&D decoded, and asset 100 carries
assigned_user_name Ann Lee and department R&D. -/
theorem display_name_join_key :
    (∀ (L : Nat → Option String) (row : ExtAsset) (uid : Nat) (f l : String),
      row.assigned_to = some (AssignedTo.user uid f l) →
      (normalizeAsset L row).assigned_user_name = some (pyStrip (f ++ " " ++ l))) ∧
    lookupStore fixtureDB.users 1 = some (normalizeUser annExt) ∧
    (normalizeUser annExt).department_name = some "R&D" ∧
    lookupStore fixtureDB.assets 100 =
      some { asset_tag := "A1", department := some "R&D",
             assigned_user_name := some "Ann Lee" } ∧
    chartDepartment
      (feUserDepartmentMap
        [{ first_name := "Ann", last_name := "Lee", department_name := "R&D" }])
      (some "Ann Lee") = "R&D" := by
  refine ⟨?_, by decide, by decide, by decide, by decide⟩
  intro L row uid f l h
  simp [normalizeAsset, displayName, h]

theorem display_name_join_key_w :
    (normalizeAsset (user_department_map [annExt]) asset100).assigned_user_name =
      some (pyStrip ("Ann" ++ " " ++ "Lee")) ∧
    pyStrip ("Ann" ++ " " ++ "Lee") = "Ann Lee" :=
  ⟨display_name_join_key.1 _ asset100 1 "Ann" "Lee" (by decide), by decide⟩

/-- C10: department resolution is total on missing references.  An
asset assigned to a user absent from the lookup (or whose user has no
department) resolves to an absent department through the Option
lookup, and the asset is still reconciled into the store; a user
without a department maps to an absent value, never to the string
None. -/
theorem dept_resolution_total :
    (∀ (st : Store Nat LocalAsset) (users : List ExtUser) (assets : List ExtAsset)
       (a : ExtAsset) (uid : Nat) (f l : String),
      (assets.map ExtAsset.id).Nodup → a ∈ assets →
      a.assigned_to = some (AssignedTo.user uid f l) →
      user_department_map users uid = none →
      lookupStore (syncAssets st users assets).1 a.id =
        some (normalizeAsset (user_department_map users) a) ∧
      (normalizeAsset (user_department_map users) a).department = none) ∧
    (∀ (users : List ExtUser) (u : ExtUser),
      (users.map ExtUser.id).Nodup → u ∈ users → userDeptRaw u = none →
      user_department_map users u.id = none ∧
      user_department_map users u.id ≠ some "None") := by
  constructor
  · intro st users assets a uid f l hnd hmem hassign hnone
    constructor
    · apply reconcile_found
      · rw [List.map_map]
        exact hnd
      · exact List.mem_map_of_mem _ hmem
    · simp [normalizeAsset, resolveAssetDept, hassign, hnone]
  · intro users u hnd hmem hraw
    have hmap : user_department_map users u.id = none := by
      simp only [user_department_map, find_rev_nodup users u hnd hmem, hraw]
    exact ⟨hmap, by simp [hmap]⟩

theorem dept_resolution_total_w :
    lookupStore (syncAssets [] [] [asset100]).1 100 =
      some (normalizeAsset (user_department_map []) asset100) ∧
    (normalizeAsset (user_department_map []) asset100).department = none :=
  dept_resolution_total.1 [] [] [asset100] asset100 1 "Ann" "Lee"
    (by decide) (by decide) (by decide) (by decide)

end AssetDashboard
